import Mathlib

/-!
# OTLP/gRPC logs export wrappers (`model/otlpgrpc/logs.go`)

A shallow embedding of the request/response wrappers, the client call and the
server binding of the logs export service.

Go pointers are addresses into an explicit heap; `none` is the nil pointer.
Methods that dereference a pointer return `Option`: `none` stands for the
run-time fault of dereferencing nil (or an address that was never allocated).
A request envelope holds the addresses of its resource-log groups, so that an
assignment of the field `ResourceLogs` shares the groups, and an internal
representation is a view on a request envelope.
The raw gRPC client and the user-supplied server handler are interface values:
they are taken as arbitrary state-passing functions over a world state.
-/

set_option autoImplicit false

/-- A Go pointer: `none` is nil, `some a` is the address `a` in the heap. -/
abbrev Ptr := Option Nat

/-! ## Wire envelope (package `otlpcollectorlog`, generated code not part of this file set) -/

namespace otlplogs

/-- Modelled from the spec: the wire-format scope entry of the absent generated package:
a scope descriptor with an ordered sequence of log records (spec section 3). The descriptor
type `S` and the record type `L` are parameters. -/
structure ScopeLogs (S L : Type) where
  Scope : S
  LogRecords : List L
deriving DecidableEq, Repr

/-- Modelled from the spec: the wire-format resource-log group of the absent generated
package: a resource descriptor plus scopes (spec section 3 and glossary). -/
structure ResourceLogs (R S L : Type) where
  Resource : R
  ScopeLogs : List (ScopeLogs S L)
deriving DecidableEq, Repr

end otlplogs

namespace otlpcollectorlog

/-- Modelled from the spec: the export-request envelope of the absent generated package,
an ordered sequence of resource-log groups (spec section 4.1). The field name
`ResourceLogs` is the one `SetLogs` assigns to in the source. In Go the field is a slice of
pointers to the groups: the envelope holds the addresses of its groups, and assigning the
field copies the addresses, not the groups. -/
structure ExportLogsServiceRequest where
  ResourceLogs : List Nat
deriving DecidableEq, Repr

/-- Modelled from the spec: the export-response envelope of the absent generated package;
it carries no field in the base contract (spec section 3). -/
structure ExportLogsServiceResponse where
deriving DecidableEq, Repr

end otlpcollectorlog

/-! ## Internal representation (package `pdata`, not part of this file set) -/

namespace pdata

/-- Modelled from the spec: one scope of the internal log representation (absent package
`pdata`), as its accessors show it: a scope with its ordered log records. -/
structure ScopeLogs (S L : Type) where
  scope : S
  logRecords : List L
deriving DecidableEq, Repr

/-- Modelled from the spec: one resource group of the internal log representation, as its
accessors show it. -/
structure ResourceLogs (R S L : Type) where
  resource : R
  scopeLogs : List (ScopeLogs S L)
deriving DecidableEq, Repr

/-- Modelled from the spec: the content of an internal log representation, an ordered
sequence of resource groups (spec section 6, "produce an ordered sequence of
resource-groups"). -/
structure LogsData (R S L : Type) where
  resourceLogs : List (ResourceLogs R S L)
deriving DecidableEq, Repr

/-- Modelled from the spec: the value `pdata.Logs` handed around by callers: "an internal
representation view over the wire data" (spec section 3). The source hands the envelope
pointer `lr.orig` itself to the constructor of this value, so the value holds a pointer to
a request envelope. -/
structure Logs where
  orig : Ptr
deriving DecidableEq, Repr

end pdata

namespace internal

/-- Modelled from the spec: the intermediary `internal.LogsWrapper` of the absent package
`internal`, made from an envelope pointer by `LogsFromOtlp` and turned back into something
with a field `ResourceLogs` by `LogsToOtlp`: it holds the envelope pointer. -/
structure LogsWrapper where
  req : Ptr
deriving DecidableEq, Repr

end internal

/-! ## Heap -/

/-- The heap: request envelopes, resource-log groups and response envelopes, each addressed
by its index. Allocation appends a cell. -/
structure Heap (R S L : Type) where
  requests : List otlpcollectorlog.ExportLogsServiceRequest
  groups : List (otlplogs.ResourceLogs R S L)
  responses : List otlpcollectorlog.ExportLogsServiceResponse
deriving DecidableEq, Repr

section Conversion

variable {R S L : Type}

/-- The groups behind a sequence of group pointers, in order; `none` when one of them is
not allocated. -/
def readGroups (gs : List (otlplogs.ResourceLogs R S L)) :
    List Nat → Option (List (otlplogs.ResourceLogs R S L))
  | [] => some []
  | p :: ps =>
    match gs[p]?, readGroups gs ps with
    | some g, some rest => some (g :: rest)
    | _, _ => none

/-- The group pointers of the envelope behind a pointer: `none` for the nil pointer. -/
def Heap.slice (h : Heap R S L) (p : Ptr) : Option (List Nat) :=
  match p with
  | none => none
  | some a =>
    match h.requests[a]? with
    | none => none
    | some env => some env.ResourceLogs

/-- The resource-group collection of the envelope behind a pointer: `none` for the nil
pointer. -/
def Heap.collection (h : Heap R S L) (p : Ptr) : Option (List (otlplogs.ResourceLogs R S L)) :=
  match p with
  | none => none
  | some a =>
    match h.requests[a]? with
    | none => none
    | some env => readGroups h.groups env.ResourceLogs

/-! ## Conversion layer (packages `internal` and `pdata`, not part of this file set) -/

/-- Modelled from the spec: `ToWire` on one scope, field for field, order kept
(spec section 4.2). -/
def pdata.ScopeLogs.toWire (s : pdata.ScopeLogs S L) : otlplogs.ScopeLogs S L :=
  { Scope := s.scope, LogRecords := s.logRecords }

/-- Modelled from the spec: `ToWire` on one resource group. -/
def pdata.ResourceLogs.toWire (r : pdata.ResourceLogs R S L) : otlplogs.ResourceLogs R S L :=
  { Resource := r.resource, ScopeLogs := r.scopeLogs.map pdata.ScopeLogs.toWire }

/-- Modelled from the spec: `ToWire(internal) -> resource-group collection`, total and
order preserving (spec section 4.2). -/
def ToWire (d : pdata.LogsData R S L) : List (otlplogs.ResourceLogs R S L) :=
  d.resourceLogs.map pdata.ResourceLogs.toWire

/-- Modelled from the spec: `FromWire` on one scope. -/
def otlplogs.ScopeLogs.fromWire (s : otlplogs.ScopeLogs S L) : pdata.ScopeLogs S L :=
  { scope := s.Scope, logRecords := s.LogRecords }

/-- Modelled from the spec: `FromWire` on one resource group. -/
def otlplogs.ResourceLogs.fromWire (r : otlplogs.ResourceLogs R S L) : pdata.ResourceLogs R S L :=
  { resource := r.Resource, scopeLogs := r.ScopeLogs.map otlplogs.ScopeLogs.fromWire }

/-- Modelled from the spec: `FromWire(resource-group collection) -> internal`, total
(spec section 4.2). -/
def FromWire (w : List (otlplogs.ResourceLogs R S L)) : pdata.LogsData R S L :=
  { resourceLogs := w.map otlplogs.ResourceLogs.fromWire }

/-- Modelled from the spec: `pdata.Logs.InternalRep` of the absent package `pdata`: the
intermediary for the same internal representation, on the same envelope. -/
def pdata.Logs.InternalRep (ld : pdata.Logs) : internal.LogsWrapper :=
  { req := ld.orig }

/-- Modelled from the spec: `pdata.LogsFromInternalRep` of the absent package `pdata`: the
view on the envelope the intermediary holds. -/
def pdata.LogsFromInternalRep (w : internal.LogsWrapper) : pdata.Logs :=
  { orig := w.req }

/-- Modelled from the spec: `internal.LogsToOtlp` of the absent package `internal`: the wire
envelope behind the internal representation; the source reads its field `ResourceLogs`. It
dereferences nothing. -/
def internal.LogsToOtlp (l : internal.LogsWrapper) : Ptr :=
  l.req

/-- Modelled from the spec: `internal.LogsFromOtlp` of the absent package `internal`: the
source passes the envelope pointer `lr.orig`, and the result is a view over that wire data
(spec section 3). It dereferences nothing, so it takes the nil pointer too. -/
def internal.LogsFromOtlp (req : Ptr) : internal.LogsWrapper :=
  { req := req }

/-- Modelled from the spec: reading the content of an internal representation through the
accessor interface of the absent package `pdata`: `FromWire` of the resource groups of the
envelope it is a view on (spec section 4.3). -/
def pdata.Logs.data (ld : pdata.Logs) (h : Heap R S L) : Option (pdata.LogsData R S L) :=
  match h.collection ld.orig with
  | none => none
  | some w => some (FromWire w)

/-- Modelled from the spec: appending a resource group to an internal representation through
the builder interface of the absent package `pdata`: the group is allocated and its address
appended to the group pointers of the envelope the value is a view on. -/
def pdata.Logs.appendGroup (ld : pdata.Logs) (g : pdata.ResourceLogs R S L) (h : Heap R S L) :
    Option (Heap R S L) :=
  match ld.orig with
  | none => none
  | some a =>
    match h.requests[a]? with
    | none => none
    | some env =>
      some { h with
        groups := h.groups ++ [g.toWire]
        requests := h.requests.set a { env with ResourceLogs := env.ResourceLogs ++ [h.groups.length] } }

/-- Modelled from the spec: editing the resource group at position `i` of an internal
representation in place through the accessor interface of the absent package `pdata`: the
group behind the `i`-th group pointer of the envelope is replaced by its image under `f`. -/
def pdata.Logs.editGroup (ld : pdata.Logs) (i : Nat)
    (f : pdata.ResourceLogs R S L → pdata.ResourceLogs R S L) (h : Heap R S L) :
    Option (Heap R S L) :=
  match ld.orig with
  | none => none
  | some a =>
    match h.requests[a]? with
    | none => none
    | some env =>
      match env.ResourceLogs[i]? with
      | none => none
      | some p =>
        match h.groups[p]? with
        | none => none
        | some g => some { h with groups := h.groups.set p (f g.fromWire).toWire }

end Conversion

/-! ## The wrappers of `logs.go` -/

namespace otlpgrpc

section Wrappers

variable {R S L : Type}

/-- The response wrapper: `type LogsResponse struct { orig *ExportLogsServiceResponse }`. -/
structure LogsResponse where
  orig : Ptr
deriving DecidableEq, Repr

/-- Source `NewLogsResponse`: a wrapper around a newly allocated empty response envelope. -/
def NewLogsResponse (h : Heap R S L) : LogsResponse × Heap R S L :=
  ({ orig := some h.responses.length }, { h with responses := h.responses ++ [{}] })

/-- The request wrapper: `type LogsRequest struct { orig *ExportLogsServiceRequest }`. -/
structure LogsRequest where
  orig : Ptr
deriving DecidableEq, Repr

/-- Source `NewLogsRequest`: a wrapper around a newly allocated empty request envelope. -/
def NewLogsRequest (h : Heap R S L) : LogsRequest × Heap R S L :=
  ({ orig := some h.requests.length },
   { h with requests := h.requests ++ [{ ResourceLogs := [] }] })

/-- Source `SetLogs`: `lr.orig.ResourceLogs = internal.LogsToOtlp(ld.InternalRep()).ResourceLogs`.
The right-hand side reads the field `ResourceLogs` of the envelope behind `ld`; the value
read, a sequence of group pointers, is then stored through the pointer `lr.orig`. -/
def LogsRequest.SetLogs (lr : LogsRequest) (ld : pdata.Logs) (h : Heap R S L) :
    Option (Heap R S L) :=
  match internal.LogsToOtlp ld.InternalRep with
  | none => none
  | some s =>
    match h.requests[s]? with
    | none => none
    | some src =>
      match lr.orig with
      | none => none
      | some a =>
        match h.requests[a]? with
        | none => none
        | some env =>
          some { h with requests := h.requests.set a { env with ResourceLogs := src.ResourceLogs } }

/-- Source `Logs`: `pdata.LogsFromInternalRep(internal.LogsFromOtlp(lr.orig))`. It reads and
writes no memory. -/
def LogsRequest.Logs (lr : LogsRequest) : pdata.Logs :=
  pdata.LogsFromInternalRep (internal.LogsFromOtlp lr.orig)

/-- The wire state of a wrapper: the resource groups of the envelope it points to. -/
def LogsRequest.wire (lr : LogsRequest) (h : Heap R S L) :
    Option (List (otlplogs.ResourceLogs R S L)) :=
  h.collection lr.orig

/-- The content of the internal representation that `Logs` returns. -/
def LogsRequest.logsData (lr : LogsRequest) (h : Heap R S L) : Option (pdata.LogsData R S L) :=
  lr.Logs.data h

/-- One call on a request wrapper: `SetLogs(ld)` or `Logs()`. -/
inductive RequestOp where
  | setLogs (ld : pdata.Logs)
  | logs
deriving DecidableEq, Repr

/-- A sequence of `SetLogs` and `Logs` calls on the wrapper `lr`, in order; `none` as soon
as one call faults. The value a `Logs` call returns is dropped. -/
def LogsRequest.run (lr : LogsRequest) : List RequestOp → Heap R S L → Option (Heap R S L)
  | [], h => some h
  | RequestOp.setLogs ld :: ops, h =>
    match lr.SetLogs ld h with
    | none => none
    | some h1 => LogsRequest.run lr ops h1
  | RequestOp.logs :: ops, h =>
    match lr.Logs with
    | _ => LogsRequest.run lr ops h

/-- The internal representations named by a sequence of calls exist: each `ld` handed to
`SetLogs` has a content in the heap `h`. -/
def RequestOp.wellFormed (h : Heap R S L) : List RequestOp → Bool
  | [] => true
  | RequestOp.setLogs ld :: ops => (ld.data h).isSome && RequestOp.wellFormed h ops
  | RequestOp.logs :: ops => RequestOp.wellFormed h ops

end Wrappers

end otlpgrpc

/-! ## Client and server contracts of `logs.go` -/

/-- The interface `otlpcollectorlog.LogsServiceClient` that `logsClient` holds: its one
method `Export(ctx, in, opts...) (*ExportLogsServiceResponse, error)`, as a function of the
world state `W` it runs in. A nil `error` is `none`. -/
structure otlpcollectorlog.LogsServiceClient (Ctx Opt Err W : Type) where
  Export : Ctx → Ptr → List Opt → W → (Ptr × Option Err) × W

namespace otlpgrpc

section Contracts

variable {Ctx Opt Err W : Type}

/-- The client: `type logsClient struct { rawClient otlpcollectorlog.LogsServiceClient }`. -/
structure logsClient (Ctx Opt Err W : Type) where
  rawClient : otlpcollectorlog.LogsServiceClient Ctx Opt Err W

/-- Source `NewLogsClient`: `&logsClient{rawClient: otlpcollectorlog.NewLogsServiceClient(cc)}`; the
generated constructor of the raw client is the parameter `newRaw`. -/
def NewLogsClient {Conn : Type} (newRaw : Conn → otlpcollectorlog.LogsServiceClient Ctx Opt Err W)
    (cc : Conn) : logsClient Ctx Opt Err W :=
  { rawClient := newRaw cc }

/-- The client call:
`rsp, err := c.rawClient.Export(ctx, request.orig, opts...); return LogsResponse{orig: rsp}, err`. -/
def logsClient.Export (c : logsClient Ctx Opt Err W) (ctx : Ctx) (request : LogsRequest)
    (opts : List Opt) (w : W) : (LogsResponse × Option Err) × W :=
  match c.rawClient.Export ctx request.orig opts w with
  | ((rsp, err), w1) => (({ orig := rsp }, err), w1)

/-- The interface `LogsServer` an implementer supplies:
`Export(context.Context, LogsRequest) (LogsResponse, error)`. -/
structure LogsServer (Ctx Err W : Type) where
  Export : Ctx → LogsRequest → W → (LogsResponse × Option Err) × W

/-- The adapter: `type rawLogsServer struct { srv LogsServer }`. -/
structure rawLogsServer (Ctx Err W : Type) where
  srv : LogsServer Ctx Err W

/-- The server binding:
`rsp, err := s.srv.Export(ctx, LogsRequest{orig: request}); return rsp.orig, err`. -/
def rawLogsServer.Export (s : rawLogsServer Ctx Err W) (ctx : Ctx) (request : Ptr) (w : W) :
    (Ptr × Option Err) × W :=
  match s.srv.Export ctx { orig := request } w with
  | ((rsp, err), w1) => ((rsp.orig, err), w1)

/-- The interface `otlpcollectorlog.LogsServiceServer` that the transport calls. -/
structure LogsServiceServer (Ctx Err W : Type) where
  Export : Ctx → Ptr → W → (Ptr × Option Err) × W

/-- The transport server `grpc.Server`, reduced to the slot of the logs service. -/
structure GrpcServer (Ctx Err W : Type) where
  logsService : Option (LogsServiceServer Ctx Err W)

/-- Modelled from the spec: the generated `otlpcollectorlog.RegisterLogsServiceServer`,
absent from this file set: it binds the service implementation to the endpoint
(spec section 4.5). -/
def RegisterLogsServiceServer (s : GrpcServer Ctx Err W) (srv : LogsServiceServer Ctx Err W) :
    GrpcServer Ctx Err W :=
  { s with logsService := some srv }

/-- Source `RegisterLogsServer`:
`otlpcollectorlog.RegisterLogsServiceServer(s, &rawLogsServer{srv: srv})`. -/
def RegisterLogsServer (s : GrpcServer Ctx Err W) (srv : LogsServer Ctx Err W) :
    GrpcServer Ctx Err W :=
  RegisterLogsServiceServer s { Export := rawLogsServer.Export { srv := srv } }

/-- Modelled from the spec: the transport handing one inbound wire request to the registered
service (spec section 4.5); `none` when no logs service is registered. -/
def GrpcServer.inbound (s : GrpcServer Ctx Err W) (ctx : Ctx) (request : Ptr) (w : W) :
    Option ((Ptr × Option Err) × W) :=
  match s.logsService with
  | none => none
  | some srv => some (srv.Export ctx request w)

/-! ### Observation of calls

To count the invocations a caller makes on an interface value, the value is wrapped into
one that logs every invocation in the world state before delegating. -/

/-- One invocation of the raw client: the context, the envelope pointer and the options. -/
structure ClientCall (Ctx Opt : Type) where
  ctx : Ctx
  request : Ptr
  opts : List Opt
deriving DecidableEq, Repr

/-- The raw client `c`, logging each invocation. -/
def traced (c : otlpcollectorlog.LogsServiceClient Ctx Opt Err W) :
    otlpcollectorlog.LogsServiceClient Ctx Opt Err (W × List (ClientCall Ctx Opt)) :=
  { Export := fun ctx q opts s =>
      match c.Export ctx q opts s.1 with
      | (r, w1) => (r, (w1, s.2 ++ [{ ctx := ctx, request := q, opts := opts }])) }

/-- One invocation of the handler: the context and the request wrapper it received. -/
structure ServerCall (Ctx : Type) where
  ctx : Ctx
  request : LogsRequest
deriving DecidableEq, Repr

/-- The handler `srv`, logging each invocation. -/
def tracedServer (srv : LogsServer Ctx Err W) : LogsServer Ctx Err (W × List (ServerCall Ctx)) :=
  { Export := fun ctx req s =>
      match srv.Export ctx req s.1 with
      | (r, w1) => (r, (w1, s.2 ++ [{ ctx := ctx, request := req }])) }

/-- A channel given by a function `f` from request envelope to response envelope. -/
def channel (f : Ptr → Ptr) : otlpcollectorlog.LogsServiceClient Ctx Opt Err W :=
  { Export := fun _ q _ w => ((f q, none), w) }

/-- A raw client whose call fails with `e` and hands back no response envelope. -/
def failing (e : Err) : otlpcollectorlog.LogsServiceClient Ctx Opt Err W :=
  { Export := fun _ _ _ w => ((none, some e), w) }

/-- A handler that answers every request with the fixed response `rsp`. -/
def fixedHandler (rsp : LogsResponse) : LogsServer Ctx Err W :=
  { Export := fun _ _ w => ((rsp, none), w) }

end Contracts

end otlpgrpc
/-! ## Sample data -/

namespace Sample

/-- An internal content with two resource groups. -/
def logsA : pdata.LogsData String String String :=
  { resourceLogs :=
      [{ resource := "host-a",
         scopeLogs := [{ scope := "scope-1", logRecords := ["rec-1", "rec-2"] },
                       { scope := "scope-2", logRecords := [] }] },
       { resource := "host-b",
         scopeLogs := [{ scope := "scope-1", logRecords := ["rec-3"] }] }] }

/-- An internal content with one resource group. -/
def logsB : pdata.LogsData String String String :=
  { resourceLogs :=
      [{ resource := "host-c",
         scopeLogs := [{ scope := "scope-9", logRecords := ["rec-9"] }] }] }

/-- A heap with two internal representations, with the contents `logsA` and `logsB`, and no
request wrapper. -/
def heap0 : Heap String String String :=
  { requests := [{ ResourceLogs := [0, 1] }, { ResourceLogs := [2] }],
    groups := ToWire logsA ++ ToWire logsB,
    responses := [] }

/-- The internal representation of `heap0` with the content `logsA`. -/
def viewA : pdata.Logs :=
  { orig := some 0 }

/-- The internal representation of `heap0` with the content `logsB`. -/
def viewB : pdata.Logs :=
  { orig := some 1 }

/-- A heap with the envelope of a request wrapper that holds the wire form of `logsA`, and
two internal representations with the contents `logsA` and `logsB`. -/
def heap1 : Heap String String String :=
  { requests := [{ ResourceLogs := [0, 1] }, { ResourceLogs := [2, 3] }, { ResourceLogs := [4] }],
    groups := ToWire logsA ++ ToWire logsA ++ ToWire logsB,
    responses := [] }

/-- The wrapper on the first envelope of `heap1`. -/
def request : otlpgrpc.LogsRequest :=
  { orig := some 0 }

/-- The internal representation of `heap1` with the content `logsA`. -/
def otherA : pdata.Logs :=
  { orig := some 1 }

/-- The internal representation of `heap1` with the content `logsB`. -/
def otherB : pdata.Logs :=
  { orig := some 2 }

/-- The first resource group of `logsA`. -/
def groupA : pdata.ResourceLogs String String String :=
  { resource := "host-a",
    scopeLogs := [{ scope := "scope-1", logRecords := ["rec-1", "rec-2"] },
                  { scope := "scope-2", logRecords := [] }] }

/-- An empty resource group. -/
def groupZ : pdata.ResourceLogs String String String :=
  { resource := "host-z", scopeLogs := [] }

/-- An in-place edit of a resource group: its resource descriptor is replaced. -/
def rename (r : pdata.ResourceLogs String String String) : pdata.ResourceLogs String String String :=
  { r with resource := "host-x" }

/-- The content `logsA` with the empty group appended. -/
def logsAZ : pdata.LogsData String String String :=
  { resourceLogs := logsA.resourceLogs ++ [groupZ] }

/-- The content `logsA` with its first group renamed. -/
def logsAX : pdata.LogsData String String String :=
  { resourceLogs :=
      [{ resource := "host-x",
         scopeLogs := [{ scope := "scope-1", logRecords := ["rec-1", "rec-2"] },
                       { scope := "scope-2", logRecords := [] }] },
       { resource := "host-b",
         scopeLogs := [{ scope := "scope-1", logRecords := ["rec-3"] }] }] }

/-- A sequence of calls on the wrapper made on `heap0`, whose envelope gets the address 2;
it also hands the wrapper's own view back to `SetLogs`. -/
def calls : List otlpgrpc.RequestOp :=
  [otlpgrpc.RequestOp.setLogs viewA, otlpgrpc.RequestOp.logs,
   otlpgrpc.RequestOp.setLogs { orig := some 2 }, otlpgrpc.RequestOp.setLogs viewB,
   otlpgrpc.RequestOp.logs]

end Sample

/-! ## Properties of the conversion layer and the heap -/

section ConversionProperties

variable {R S L : Type}

theorem fromWire_toWire_scope (s : pdata.ScopeLogs S L) : s.toWire.fromWire = s := rfl

theorem toWire_fromWire_scope (s : otlplogs.ScopeLogs S L) : s.fromWire.toWire = s := rfl

theorem fromWire_toWire_resource (r : pdata.ResourceLogs R S L) : r.toWire.fromWire = r := by
  cases r with
  | mk resource scopeLogs =>
    simp only [pdata.ResourceLogs.toWire, otlplogs.ResourceLogs.fromWire, List.map_map]
    congr 1
    induction scopeLogs with
    | nil => rfl
    | cons x xs ih => simp [fromWire_toWire_scope, ih]

theorem toWire_fromWire_resource (r : otlplogs.ResourceLogs R S L) : r.fromWire.toWire = r := by
  cases r with
  | mk resource scopeLogs =>
    simp only [pdata.ResourceLogs.toWire, otlplogs.ResourceLogs.fromWire, List.map_map]
    congr 1
    induction scopeLogs with
    | nil => rfl
    | cons x xs ih => simp [toWire_fromWire_scope, ih]

/-- The conversion back undoes the conversion to the wire form. -/
theorem FromWire_ToWire (d : pdata.LogsData R S L) : FromWire (ToWire d) = d := by
  cases d with
  | mk rs =>
    simp only [ToWire, FromWire, List.map_map]
    congr 1
    induction rs with
    | nil => rfl
    | cons x xs ih => simp [fromWire_toWire_resource, ih]

/-- The conversion to the wire form undoes the conversion back. -/
theorem ToWire_FromWire (w : List (otlplogs.ResourceLogs R S L)) : ToWire (FromWire w) = w := by
  simp only [ToWire, FromWire, List.map_map]
  induction w with
  | nil => rfl
  | cons x xs ih => simp [toWire_fromWire_resource, ih]

/-- Reading groups: one step. -/
theorem readGroups_cons (gs : List (otlplogs.ResourceLogs R S L)) (p : Nat) (ps : List Nat)
    (w : List (otlplogs.ResourceLogs R S L)) (hr : readGroups gs (p :: ps) = some w) :
    ∃ g rest, gs[p]? = some g ∧ readGroups gs ps = some rest ∧ w = g :: rest := by
  unfold readGroups at hr
  cases h1 : gs[p]? with
  | none => simp [h1] at hr
  | some g =>
    cases h2 : readGroups gs ps with
    | none => simp [h1, h2] at hr
    | some rest =>
      simp [h1, h2] at hr
      exact ⟨g, rest, rfl, rfl, hr.symm⟩

/-- Reading groups: the group at position `i` is the one behind the `i`-th pointer. -/
theorem readGroups_getElem (gs : List (otlplogs.ResourceLogs R S L)) :
    ∀ (ps : List Nat) (w : List (otlplogs.ResourceLogs R S L)) (i : Nat)
      (gi : otlplogs.ResourceLogs R S L),
      readGroups gs ps = some w → w[i]? = some gi → ∃ p, ps[i]? = some p ∧ gs[p]? = some gi := by
  intro ps
  induction ps with
  | nil =>
    intro w i gi hr hi
    simp [readGroups] at hr
    subst hr
    simp at hi
  | cons p ps ih =>
    intro w i gi hr hi
    obtain ⟨g, rest, hg, hrest, rfl⟩ := readGroups_cons gs p ps w hr
    cases i with
    | zero =>
      simp at hi
      subst hi
      exact ⟨p, by simp, hg⟩
    | succ j =>
      simp at hi
      obtain ⟨q, hq, hgq⟩ := ih rest j gi hrest hi
      exact ⟨q, by simpa using hq, hgq⟩

/-- Reading groups is not disturbed by an allocation of further groups. -/
theorem readGroups_append_store (gs xs : List (otlplogs.ResourceLogs R S L)) :
    ∀ (ps : List Nat) (w : List (otlplogs.ResourceLogs R S L)),
      readGroups gs ps = some w → readGroups (gs ++ xs) ps = some w := by
  intro ps
  induction ps with
  | nil =>
    intro w hr
    simpa [readGroups] using hr
  | cons p ps ih =>
    intro w hr
    obtain ⟨g, rest, hg, hrest, rfl⟩ := readGroups_cons gs p ps w hr
    have hlt : p < gs.length := by
      rcases Nat.lt_or_ge p gs.length with hlt | hge
      · exact hlt
      · rw [List.getElem?_eq_none hge] at hg
        cases hg
    have hg2 : (gs ++ xs)[p]? = some g := by
      rw [List.getElem?_append_left hlt]
      exact hg
    simp [readGroups, hg2, ih rest hrest]

/-- Reading groups after a group was allocated and its pointer appended. -/
theorem readGroups_snoc (gs : List (otlplogs.ResourceLogs R S L))
    (g : otlplogs.ResourceLogs R S L) :
    ∀ (ps : List Nat) (w : List (otlplogs.ResourceLogs R S L)),
      readGroups gs ps = some w →
      readGroups (gs ++ [g]) (ps ++ [gs.length]) = some (w ++ [g]) := by
  intro ps
  induction ps with
  | nil =>
    intro w hr
    simp [readGroups] at hr
    subst hr
    simp [readGroups]
  | cons p ps ih =>
    intro w hr
    obtain ⟨g1, rest, hg, hrest, rfl⟩ := readGroups_cons gs p ps w hr
    have hlt : p < gs.length := by
      rcases Nat.lt_or_ge p gs.length with hlt | hge
      · exact hlt
      · rw [List.getElem?_eq_none hge] at hg
        cases hg
    have hg2 : (gs ++ [g])[p]? = some g1 := by
      rw [List.getElem?_append_left hlt]
      exact hg
    have hrec := ih rest hrest
    simp only [List.cons_append]
    simp [readGroups, hg2, hrec]

/-- Reading groups after the group at address `p` was replaced by `x`: every position that
points to `p` shows `x`. -/
theorem readGroups_set (gs : List (otlplogs.ResourceLogs R S L)) (p : Nat)
    (x : otlplogs.ResourceLogs R S L) :
    ∀ (ps : List Nat) (w : List (otlplogs.ResourceLogs R S L)),
      readGroups gs ps = some w →
      ∃ w2, readGroups (gs.set p x) ps = some w2 ∧ w2.length = w.length ∧
        ∀ i : Nat, ps[i]? = some p → w2[i]? = some x := by
  intro ps
  induction ps with
  | nil =>
    intro w hr
    simp [readGroups] at hr
    subst hr
    exact ⟨[], by simp [readGroups], rfl, by simp⟩
  | cons q ps ih =>
    intro w hr
    obtain ⟨g1, rest, hg, hrest, rfl⟩ := readGroups_cons gs q ps w hr
    obtain ⟨w2, hw2, hlen, hpos⟩ := ih rest hrest
    have hlt : q < gs.length := by
      rcases Nat.lt_or_ge q gs.length with hlt | hge
      · exact hlt
      · rw [List.getElem?_eq_none hge] at hg
        cases hg
    by_cases hqp : q = p
    · subst hqp
      refine ⟨x :: w2, by simp [readGroups, hlt, hw2], by simp [hlen], ?_⟩
      intro i hi
      cases i with
      | zero => simp
      | succ j =>
        simp at hi
        simpa using hpos j hi
    · have hg2 : (gs.set p x)[q]? = some g1 := by
        rw [List.getElem?_set_ne (Ne.symm hqp)]
        exact hg
      refine ⟨g1 :: w2, by simp [readGroups, hg2, hw2], by simp [hlen], ?_⟩
      intro i hi
      cases i with
      | zero =>
        simp at hi
        exact absurd hi hqp
      | succ j =>
        simp at hi
        simpa using hpos j hi

end ConversionProperties

/-! ## Properties of the request wrapper -/

namespace otlpgrpc

section WrapperProperties

variable {R S L : Type}

/-- An address with a cell is below the size of the store. -/
theorem lt_of_getElem? {α : Type} (xs : List α) (i : Nat) (x : α) (hx : xs[i]? = some x) :
    i < xs.length := by
  rcases Nat.lt_or_ge i xs.length with hlt | hge
  · exact hlt
  · rw [List.getElem?_eq_none hge] at hx
    cases hx

/-- A pointer with a resource-group collection points to an allocated envelope whose groups
are all allocated. -/
theorem collection_some (h : Heap R S L) (p : Ptr) (w : List (otlplogs.ResourceLogs R S L))
    (hw : h.collection p = some w) :
    ∃ a env, p = some a ∧ h.requests[a]? = some env ∧
      readGroups h.groups env.ResourceLogs = some w := by
  unfold Heap.collection at hw
  cases p with
  | none => simp at hw
  | some a =>
    cases henv : h.requests[a]? with
    | none => simp [henv] at hw
    | some env =>
      simp [henv] at hw
      exact ⟨a, env, rfl, henv, hw⟩

/-- The collection behind a pointer to an allocated envelope. -/
theorem collection_of (h : Heap R S L) (a : Nat)
    (env : otlpcollectorlog.ExportLogsServiceRequest) (henv : h.requests[a]? = some env) :
    h.collection (some a) = readGroups h.groups env.ResourceLogs := by
  simp [Heap.collection, henv]

/-- An internal representation with a content is a view on an envelope with a collection. -/
theorem data_some (ld : pdata.Logs) (h : Heap R S L) (d : pdata.LogsData R S L)
    (hd : ld.data h = some d) : ∃ w, h.collection ld.orig = some w ∧ d = FromWire w := by
  unfold pdata.Logs.data at hd
  cases hc : h.collection ld.orig with
  | none => simp [hc] at hd
  | some w =>
    simp [hc] at hd
    exact ⟨w, rfl, hd.symm⟩

/-- The collection behind a pointer is read through its group pointers. -/
theorem collection_slice (h : Heap R S L) (p : Ptr) :
    h.collection p = (h.slice p).bind (readGroups h.groups) := by
  unfold Heap.collection Heap.slice
  cases p with
  | none => rfl
  | some a =>
    cases henv : h.requests[a]? with
    | none => simp [henv]
    | some env => simp [henv]

/-- What `SetLogs` does when both envelopes are allocated. -/
theorem setLogs_spec (lr : LogsRequest) (ld : pdata.Logs) (h : Heap R S L) (a s : Nat)
    (env src : otlpcollectorlog.ExportLogsServiceRequest)
    (ha : lr.orig = some a) (henv : h.requests[a]? = some env)
    (hs : ld.orig = some s) (hsrc : h.requests[s]? = some src) :
    lr.SetLogs ld h =
      some { h with requests := h.requests.set a { ResourceLogs := src.ResourceLogs } } := by
  simp [LogsRequest.SetLogs, internal.LogsToOtlp, pdata.Logs.InternalRep, ha, henv, hs, hsrc]

/-- Frame of `SetLogs`: it makes the wrapper's envelope hold the groups of `ld`, allocates
nothing, and leaves the groups and every other envelope as they are. -/
theorem setLogs_frame (lr : LogsRequest) (ld : pdata.Logs) (h : Heap R S L)
    (w : List (otlplogs.ResourceLogs R S L)) (d : pdata.LogsData R S L)
    (hw : lr.wire h = some w) (hd : ld.data h = some d) :
    ∃ h1, lr.SetLogs ld h = some h1 ∧ h1.groups = h.groups ∧
      h1.requests.length = h.requests.length ∧
      h1.collection lr.orig = h.collection ld.orig ∧
      (∀ p : Ptr, p ≠ lr.orig → h1.collection p = h.collection p) ∧
      (∀ (a i : Nat), lr.orig = some a → i ≠ a → h1.requests[i]? = h.requests[i]?) ∧
      h1.slice lr.orig = h.slice ld.orig ∧
      (∀ p : Ptr, p ≠ lr.orig → h1.slice p = h.slice p) := by
  obtain ⟨a, env, ha, henv, -⟩ := collection_some h lr.orig w hw
  obtain ⟨wd, hcd, -⟩ := data_some ld h d hd
  obtain ⟨s, src, hs, hsrc, hrd⟩ := collection_some h ld.orig wd hcd
  have halt := lt_of_getElem? _ _ _ henv
  refine ⟨_, setLogs_spec lr ld h a s env src ha henv hs hsrc, rfl, by simp, ?_, ?_, ?_, ?_, ?_⟩
  · rw [ha, hs, collection_of h s src hsrc]
    simp [Heap.collection, halt]
  · intro p hp
    cases p with
    | none => rfl
    | some b =>
      have hab : a ≠ b := by
        intro hab
        apply hp
        rw [ha, hab]
      simp [Heap.collection, List.getElem?_set_ne hab]
  · intro a1 i ha1 hi
    rw [ha] at ha1
    cases ha1
    simp [List.getElem?_set_ne (Ne.symm hi)]
  · rw [ha, hs]
    simp [Heap.slice, halt, hsrc]
  · intro p hp
    cases p with
    | none => rfl
    | some b =>
      have hab : a ≠ b := by
        intro hab
        apply hp
        rw [ha, hab]
      simp [Heap.slice, List.getElem?_set_ne hab]

/-- Allocation by `NewLogsRequest`: it returns a wrapper on a new empty envelope; the groups
and the collection behind every pointer that had one are kept, and no such pointer is the new
wrapper's. -/
theorem newLogsRequest_fresh (h h1 : Heap R S L) (lr : LogsRequest)
    (hn : NewLogsRequest h = (lr, h1)) :
    lr.wire h1 = some [] ∧ h1.groups = h.groups ∧
      ∀ (p : Ptr) (w : List (otlplogs.ResourceLogs R S L)),
        h.collection p = some w →
        h1.collection p = some w ∧ p ≠ lr.orig ∧ h1.slice p = h.slice p := by
  simp only [NewLogsRequest, Prod.mk.injEq] at hn
  obtain ⟨rfl, rfl⟩ := hn
  refine ⟨by simp [LogsRequest.wire, Heap.collection, readGroups], rfl, ?_⟩
  intro p w hw
  obtain ⟨a, env, rfl, henv, hr⟩ := collection_some h p w hw
  have hlt := lt_of_getElem? _ _ _ henv
  refine ⟨?_, ?_, ?_⟩
  · simp [Heap.collection, List.getElem?_append_left hlt, henv, hr]
  · simp
    omega
  · simp [Heap.slice, List.getElem?_append_left hlt]

/-- C8: the internal representation returned by `Logs` on a newly made request wrapper has
no resource group. -/
theorem new_request_logs_empty (h : Heap R S L) :
    (NewLogsRequest h).1.logsData (NewLogsRequest h).2 = some { resourceLogs := [] } := by
  simp [LogsRequest.logsData, NewLogsRequest, LogsRequest.Logs, internal.LogsFromOtlp,
    pdata.LogsFromInternalRep, pdata.Logs.data, Heap.collection, readGroups, FromWire]

/-- The content `Logs` returns is `FromWire` of the wire state. -/
theorem logsData_eq (lr : LogsRequest) (h : Heap R S L) :
    lr.logsData h = (lr.wire h).map FromWire := by
  unfold LogsRequest.logsData LogsRequest.Logs internal.LogsFromOtlp pdata.LogsFromInternalRep
    pdata.Logs.data LogsRequest.wire
  cases h.collection lr.orig <;> rfl

/-- C1: on a newly made request wrapper, `SetLogs(ld)` succeeds and `Logs` then returns an
internal representation with exactly the content of `ld`: the same resource groups, scopes
and log records in the same order. -/
theorem logs_undoes_setLogs (h : Heap R S L) (ld : pdata.Logs) (d : pdata.LogsData R S L)
    (hd : ld.data h = some d) :
    ∃ h2, (NewLogsRequest h).1.SetLogs ld (NewLogsRequest h).2 = some h2 ∧
      (NewLogsRequest h).1.logsData h2 = some d := by
  obtain ⟨hnew, -, hkeep⟩ := newLogsRequest_fresh h (NewLogsRequest h).2 (NewLogsRequest h).1 rfl
  obtain ⟨w, hc, rfl⟩ := data_some ld h (d) hd
  obtain ⟨hc1, -, -⟩ := hkeep ld.orig w hc
  have hd1 : ld.data (NewLogsRequest h).2 = some (FromWire w) := by
    simp [pdata.Logs.data, hc1]
  obtain ⟨h2, hs, -, -, hcol, -⟩ := setLogs_frame (NewLogsRequest h).1 ld (NewLogsRequest h).2
    [] (FromWire w) hnew hd1
  refine ⟨h2, hs, ?_⟩
  rw [logsData_eq]
  unfold LogsRequest.wire
  rw [hcol, hc1]
  rfl

/-- Witness of C1 on the sample heap: the content `logsA` goes through a new wrapper and
comes back. -/
theorem logs_undoes_setLogs_witness :
    Sample.viewA.data Sample.heap0 = some Sample.logsA ∧
      ∃ h2, (NewLogsRequest Sample.heap0).1.SetLogs Sample.viewA (NewLogsRequest Sample.heap0).2 =
          some h2 ∧
        (NewLogsRequest Sample.heap0).1.logsData h2 = some Sample.logsA :=
  ⟨by decide, logs_undoes_setLogs Sample.heap0 Sample.viewA Sample.logsA (by decide)⟩

/-- C7, as the code has it: `SetLogs(b)` replaces the wrapper's collection by the groups `b`
holds when the call is made, and a repeated `SetLogs(b)` changes nothing. When `b` is not a
view on the wrapper's own envelope, `SetLogs(a)` followed by `SetLogs(b)` leaves exactly the
wire form of `b` in the wrapper and the heap is the one `SetLogs(b)` alone produces. -/
theorem setLogs_overwrites (h : Heap R S L) (req : LogsRequest) (a b : pdata.Logs)
    (w0 : List (otlplogs.ResourceLogs R S L)) (da db : pdata.LogsData R S L)
    (hw : req.wire h = some w0) (ha : a.data h = some da) (hb : b.data h = some db) :
    ∃ h1 h2, req.SetLogs a h = some h1 ∧ req.SetLogs b h1 = some h2 ∧
      req.wire h2 = (b.data h1).map ToWire ∧ req.SetLogs b h2 = some h2 ∧
      (b.orig ≠ req.orig → req.wire h2 = some (ToWire db) ∧ req.SetLogs b h = some h2) := by
  obtain ⟨a0, env0, hreq, henv0, -⟩ := collection_some h req.orig w0 hw
  obtain ⟨wa, hca, -⟩ := data_some a h da ha
  obtain ⟨sa, srca, hsa, hsrca, -⟩ := collection_some h a.orig wa hca
  obtain ⟨wb, hcb, rfl⟩ := data_some b h db hb
  obtain ⟨sb, srcb, hsb, hsrcb, hrb⟩ := collection_some h b.orig wb hcb
  have hlt := lt_of_getElem? _ _ _ henv0
  have hltb := lt_of_getElem? _ _ _ hsrcb
  have hs1 := setLogs_spec req a h a0 sa env0 srca hreq henv0 hsa hsrca
  by_cases hab : sb = a0
  · -- `b` is a view on the wrapper's own envelope: the second call stores what is there
    subst hab
    refine ⟨_, { h with requests := h.requests.set sb { ResourceLogs := srca.ResourceLogs } },
      hs1, ?_, ?_, ?_, ?_⟩
    · simp [LogsRequest.SetLogs, internal.LogsToOtlp, pdata.Logs.InternalRep, hreq, hsb, hlt]
    · simp [LogsRequest.wire, pdata.Logs.data, Heap.collection, hreq, hsb, hlt]
      cases readGroups h.groups srca.ResourceLogs with
      | none => rfl
      | some w => simp [ToWire_FromWire]
    · simp [LogsRequest.SetLogs, internal.LogsToOtlp, pdata.Logs.InternalRep, hreq, hsb, hlt]
    · intro hne
      exact absurd (hsb.trans hreq.symm) hne
  · refine ⟨_, { h with requests := h.requests.set a0 { ResourceLogs := srcb.ResourceLogs } },
      hs1, ?_, ?_, ?_, ?_⟩
    · simp [LogsRequest.SetLogs, internal.LogsToOtlp, pdata.Logs.InternalRep, hreq, hsb, hlt,
        List.getElem?_set_ne (Ne.symm hab), hsrcb]
    · simp [LogsRequest.wire, pdata.Logs.data, Heap.collection, hreq, hsb, hlt,
        List.getElem?_set_ne (Ne.symm hab), hsrcb, hrb, ToWire_FromWire]
    · simp [LogsRequest.SetLogs, internal.LogsToOtlp, pdata.Logs.InternalRep, hreq, hsb, hlt,
        List.getElem?_set_ne (Ne.symm hab), hsrcb]
    · intro _
      constructor
      · simp [LogsRequest.wire, Heap.collection, hreq, hlt, hrb, ToWire_FromWire]
      · exact setLogs_spec req b h a0 sb env0 srcb hreq henv0 hsb hsrcb

/-- Witness of C7 on the sample heap: `SetLogs` with the content `logsA`, then with the
content `logsB`. -/
theorem setLogs_overwrites_witness :
    (Sample.request.wire Sample.heap1 = some (ToWire Sample.logsA) ∧
      Sample.otherA.data Sample.heap1 = some Sample.logsA ∧
      Sample.otherB.data Sample.heap1 = some Sample.logsB) ∧
      ∃ h1 h2, Sample.request.SetLogs Sample.otherA Sample.heap1 = some h1 ∧
        Sample.request.SetLogs Sample.otherB h1 = some h2 ∧
        Sample.request.wire h2 = (Sample.otherB.data h1).map ToWire ∧
        Sample.request.SetLogs Sample.otherB h2 = some h2 ∧
        (Sample.otherB.orig ≠ Sample.request.orig →
          Sample.request.wire h2 = some (ToWire Sample.logsB) ∧
          Sample.request.SetLogs Sample.otherB Sample.heap1 = some h2) :=
  ⟨⟨by decide, by decide, by decide⟩,
    setLogs_overwrites Sample.heap1 Sample.request Sample.otherA Sample.otherB
      (ToWire Sample.logsA) Sample.logsA Sample.logsB (by decide) (by decide) (by decide)⟩

/-- C7 fails as stated: with `b` the value `Logs` returned on the wrapper itself, `SetLogs(a)`
followed by `SetLogs(b)` leaves the groups of `a` in the wrapper, not the content `b` had
before the calls, and the heap differs from the one `SetLogs(b)` alone produces. -/
theorem setLogs_own_view_keeps_previous :
    Sample.request.Logs.data Sample.heap1 = some Sample.logsA ∧
      Sample.otherB.data Sample.heap1 = some Sample.logsB ∧
      ((Sample.request.SetLogs Sample.otherB Sample.heap1).bind
        (fun h1 => (Sample.request.SetLogs Sample.request.Logs h1).bind
          (fun h2 => Sample.request.wire h2))) = some (ToWire Sample.logsB) ∧
      ((Sample.request.SetLogs Sample.request.Logs Sample.heap1).bind
        (fun h2 => Sample.request.wire h2)) = some (ToWire Sample.logsA) ∧
      ToWire Sample.logsB ≠ ToWire Sample.logsA := by
  decide

/-- Contents that exist in a heap exist in every heap that keeps the collections. -/
theorem wellFormed_mono (h h1 : Heap R S L)
    (hkeep : ∀ (p : Ptr) (w : List (otlplogs.ResourceLogs R S L)),
      h.collection p = some w → ∃ w1, h1.collection p = some w1) :
    ∀ ops : List RequestOp, RequestOp.wellFormed h ops = true →
      RequestOp.wellFormed h1 ops = true := by
  intro ops
  induction ops with
  | nil => intro _; rfl
  | cons op ops ih =>
    intro hwf
    cases op with
    | setLogs ld =>
      simp only [RequestOp.wellFormed, Bool.and_eq_true] at hwf ⊢
      refine ⟨?_, ih hwf.2⟩
      have h1d := hwf.1
      unfold pdata.Logs.data at h1d ⊢
      cases hc : h.collection ld.orig with
      | none => simp [hc] at h1d
      | some w =>
        obtain ⟨w1, hw1⟩ := hkeep ld.orig w hc
        simp [hw1]
    | logs =>
      simp only [RequestOp.wellFormed] at hwf ⊢
      exact ih hwf

/-- Any sequence of `SetLogs` and `Logs` calls on a wrapper with a wire state runs without a
fault, keeps the wrapper's wire state readable, allocates nothing and touches no envelope
other than the wrapper's own. -/
theorem run_live (lr : LogsRequest) (ops : List RequestOp) :
    ∀ (h : Heap R S L) (w : List (otlplogs.ResourceLogs R S L)), lr.wire h = some w →
      RequestOp.wellFormed h ops = true →
      ∃ h1 w1, lr.run ops h = some h1 ∧ lr.wire h1 = some w1 ∧
        h1.requests.length = h.requests.length ∧ h1.groups = h.groups ∧
        ∀ (a i : Nat), lr.orig = some a → i ≠ a → h1.requests[i]? = h.requests[i]? := by
  induction ops with
  | nil =>
    intro h w hw _
    exact ⟨h, w, rfl, hw, rfl, rfl, fun _ _ _ _ => rfl⟩
  | cons op ops ih =>
    intro h w hw hwf
    cases op with
    | setLogs ld =>
      simp only [RequestOp.wellFormed, Bool.and_eq_true] at hwf
      obtain ⟨hld, hrest⟩ := hwf
      obtain ⟨d, hd⟩ := Option.isSome_iff_exists.mp hld
      obtain ⟨wd, hcd, -⟩ := data_some ld h d hd
      obtain ⟨h1, hs, hgroups, hlen, hcol, hother, hframe, -, -⟩ :=
        setLogs_frame lr ld h w d hw hd
      have hw1 : lr.wire h1 = some wd := by
        unfold LogsRequest.wire
        rw [hcol, hcd]
      have hkeep : ∀ (p : Ptr) (w0 : List (otlplogs.ResourceLogs R S L)),
          h.collection p = some w0 → ∃ w1, h1.collection p = some w1 := by
        intro p w0 hp
        by_cases hpl : p = lr.orig
        · subst hpl
          exact ⟨wd, hw1⟩
        · exact ⟨w0, (hother p hpl).trans hp⟩
      obtain ⟨h2, w2, hrun, hw2, hlen2, hgroups2, hframe2⟩ :=
        ih h1 wd hw1 (wellFormed_mono h h1 hkeep ops hrest)
      refine ⟨h2, w2, ?_, hw2, hlen2.trans hlen, hgroups2.trans hgroups, ?_⟩
      · simp [LogsRequest.run, hs, hrun]
      · intro a i ha hi
        rw [hframe2 a i ha hi, hframe a i ha hi]
    | logs =>
      simp only [RequestOp.wellFormed] at hwf
      obtain ⟨h2, w2, hrun, hw2, hlen2, hgroups2, hframe2⟩ := ih h w hw hwf
      exact ⟨h2, w2, by simpa [LogsRequest.run] using hrun, hw2, hlen2, hgroups2, hframe2⟩

/-- C10: a wrapper made by `NewLogsRequest` holds a non-null pointer to the envelope just
allocated; every sequence of `SetLogs` and `Logs` calls on it runs without dereferencing
nil, after which the wrapper still has a wire state at that same address, no envelope was
added or removed and no other envelope was touched; and `Logs` returns a value on the
wrapper's own envelope and leaves the whole heap unchanged. -/
theorem request_envelope_invariant (h0 : Heap R S L) (ops : List RequestOp)
    (hops : RequestOp.wellFormed (NewLogsRequest h0).2 ops = true) :
    (NewLogsRequest h0).1.orig = some h0.requests.length ∧
      (NewLogsRequest h0).1.wire (NewLogsRequest h0).2 = some [] ∧
      (∃ h1 w, (NewLogsRequest h0).1.run ops (NewLogsRequest h0).2 = some h1 ∧
        (NewLogsRequest h0).1.wire h1 = some w ∧
        h1.requests.length = h0.requests.length + 1 ∧
        ∀ i, i < h0.requests.length → h1.requests[i]? = h0.requests[i]?) ∧
      (∀ (lr : LogsRequest) (h : Heap R S L),
        lr.Logs.orig = lr.orig ∧ lr.run [RequestOp.logs] h = some h) := by
  obtain ⟨hnew, -, -⟩ := newLogsRequest_fresh h0 (NewLogsRequest h0).2 (NewLogsRequest h0).1 rfl
  refine ⟨rfl, hnew, ?_, ?_⟩
  · obtain ⟨h1, w1, hrun, hw1, hlen, -, hframe⟩ :=
      run_live (NewLogsRequest h0).1 ops (NewLogsRequest h0).2 [] hnew hops
    refine ⟨h1, w1, hrun, hw1, by simpa [NewLogsRequest] using hlen, ?_⟩
    intro i hi
    rw [hframe h0.requests.length i rfl (by omega)]
    simp [NewLogsRequest, List.getElem?_append_left hi]
  · intro lr h
    exact ⟨rfl, rfl⟩

/-- Witness of C10 on the sample heap and the sample sequence of calls. -/
theorem request_envelope_invariant_witness :
    RequestOp.wellFormed (NewLogsRequest Sample.heap0).2 Sample.calls = true ∧
      (NewLogsRequest Sample.heap0).1.orig = some Sample.heap0.requests.length ∧
      (NewLogsRequest Sample.heap0).1.wire (NewLogsRequest Sample.heap0).2 = some [] ∧
      (∃ h1 w, (NewLogsRequest Sample.heap0).1.run Sample.calls (NewLogsRequest Sample.heap0).2 =
          some h1 ∧
        (NewLogsRequest Sample.heap0).1.wire h1 = some w ∧
        h1.requests.length = Sample.heap0.requests.length + 1 ∧
        ∀ i, i < Sample.heap0.requests.length → h1.requests[i]? = Sample.heap0.requests[i]?) ∧
      (∀ (lr : LogsRequest) (h : Heap String String String),
        lr.Logs.orig = lr.orig ∧ lr.run [RequestOp.logs] h = some h) :=
  ⟨by decide, request_envelope_invariant Sample.heap0 Sample.calls (by decide)⟩

/-- Appending a group through an internal representation appends it to the collection of the
envelope the value is a view on, and keeps every other collection. -/
theorem appendGroup_spec (ld : pdata.Logs) (g : pdata.ResourceLogs R S L) (h : Heap R S L)
    (w : List (otlplogs.ResourceLogs R S L)) (hc : h.collection ld.orig = some w) :
    ∃ h2, ld.appendGroup g h = some h2 ∧ h2.collection ld.orig = some (w ++ [g.toWire]) ∧
      ∀ (q : Ptr) (w1 : List (otlplogs.ResourceLogs R S L)),
        q ≠ ld.orig → h.collection q = some w1 → h2.collection q = some w1 := by
  obtain ⟨a, env, ha, henv, hr⟩ := collection_some h ld.orig w hc
  have hlt := lt_of_getElem? _ _ _ henv
  refine ⟨{ h with
      groups := h.groups ++ [g.toWire]
      requests := h.requests.set a { ResourceLogs := env.ResourceLogs ++ [h.groups.length] } },
    by simp [pdata.Logs.appendGroup, ha, henv], ?_, ?_⟩
  · rw [ha]
    simp [Heap.collection, hlt, readGroups_snoc h.groups g.toWire env.ResourceLogs w hr]
  · intro q w1 hq hw1
    obtain ⟨b, envb, rfl, henvb, hrb⟩ := collection_some h q w1 hw1
    have hab : a ≠ b := by
      intro hab
      apply hq
      rw [ha, hab]
    simp [Heap.collection, List.getElem?_set_ne hab, henvb,
      readGroups_append_store h.groups [g.toWire] envb.ResourceLogs w1 hrb]

/-- Editing group `i` in place through an internal representation changes no envelope; the
edited group shows at position `i` of the collection, and every pointer whose envelope holds
the same group pointers shows the same collection. -/
theorem editGroup_spec (ld : pdata.Logs) (i : Nat)
    (f : pdata.ResourceLogs R S L → pdata.ResourceLogs R S L) (h : Heap R S L)
    (w : List (otlplogs.ResourceLogs R S L)) (gi : otlplogs.ResourceLogs R S L)
    (hc : h.collection ld.orig = some w) (hi : w[i]? = some gi) :
    ∃ h3 w3, ld.editGroup i f h = some h3 ∧ h3.requests = h.requests ∧
      h3.collection ld.orig = some w3 ∧ w3.length = w.length ∧
      w3[i]? = some (f gi.fromWire).toWire ∧
      ∀ q : Ptr, h.slice q = h.slice ld.orig → h3.collection q = some w3 := by
  obtain ⟨a, env, ha, henv, hr⟩ := collection_some h ld.orig w hc
  obtain ⟨p, hp, hgp⟩ := readGroups_getElem h.groups env.ResourceLogs w i gi hr hi
  obtain ⟨w3, hw3, hlen, hpos⟩ :=
    readGroups_set h.groups p (f gi.fromWire).toWire env.ResourceLogs w hr
  have hslice : h.slice ld.orig = some env.ResourceLogs := by
    simp [Heap.slice, ha, henv]
  have hq : ∀ q : Ptr, h.slice q = h.slice ld.orig →
      ({ h with groups := h.groups.set p (f gi.fromWire).toWire } : Heap R S L).collection q =
        some w3 := by
    intro q hq
    rw [collection_slice]
    have : ({ h with groups := h.groups.set p (f gi.fromWire).toWire } : Heap R S L).slice q =
        some env.ResourceLogs := by
      rw [← hslice, ← hq]
      rfl
    rw [this]
    exact hw3
  exact ⟨{ h with groups := h.groups.set p (f gi.fromWire).toWire }, w3,
    by simp [pdata.Logs.editGroup, ha, henv, hp, hgp], rfl, hq ld.orig rfl, hlen,
    hpos i hp, hq⟩

/-- C2, as the code has it: `Logs` returns a view on the wrapper's own envelope, with the
content `FromWire` of the wire state. Appending a resource group through the returned value
appends it to the wrapper's wire state, and editing group `i` in place through it changes
group `i` of the wrapper's wire state, with no call of `SetLogs`. -/
theorem logs_result_is_view (h : Heap R S L) (req : LogsRequest)
    (w : List (otlplogs.ResourceLogs R S L)) (g : pdata.ResourceLogs R S L) (i : Nat)
    (f : pdata.ResourceLogs R S L → pdata.ResourceLogs R S L)
    (gi : otlplogs.ResourceLogs R S L)
    (hw : req.wire h = some w) (hi : w[i]? = some gi) :
    req.Logs.orig = req.orig ∧ req.Logs.data h = some (FromWire w) ∧
      (∃ h2, req.Logs.appendGroup g h = some h2 ∧ req.wire h2 = some (w ++ [g.toWire])) ∧
      (∃ h3 w3, req.Logs.editGroup i f h = some h3 ∧ req.wire h3 = some w3 ∧
        w3.length = w.length ∧ w3[i]? = some (f gi.fromWire).toWire) := by
  have hc : h.collection req.Logs.orig = some w := hw
  refine ⟨rfl, by simp [pdata.Logs.data, hc], ?_, ?_⟩
  · obtain ⟨h2, happ, hcol, -⟩ := appendGroup_spec req.Logs g h w hc
    exact ⟨h2, happ, hcol⟩
  · obtain ⟨h3, w3, hed, -, hcol, hlen, hpos, -⟩ := editGroup_spec req.Logs i f h w gi hc hi
    exact ⟨h3, w3, hed, hcol, hlen, hpos⟩

/-- Witness of C2 on the sample heap: the empty group is appended, and the first group is
renamed, through what `Logs` returned. -/
theorem logs_result_is_view_witness :
    (Sample.request.wire Sample.heap1 = some (ToWire Sample.logsA) ∧
      (ToWire Sample.logsA)[0]? = some Sample.groupA.toWire) ∧
      Sample.request.Logs.orig = Sample.request.orig ∧
      Sample.request.Logs.data Sample.heap1 = some (FromWire (ToWire Sample.logsA)) ∧
      (∃ h2, Sample.request.Logs.appendGroup Sample.groupZ Sample.heap1 = some h2 ∧
        Sample.request.wire h2 = some (ToWire Sample.logsA ++ [Sample.groupZ.toWire])) ∧
      (∃ h3 w3, Sample.request.Logs.editGroup 0 Sample.rename Sample.heap1 = some h3 ∧
        Sample.request.wire h3 = some w3 ∧ w3.length = (ToWire Sample.logsA).length ∧
        w3[0]? = some (Sample.rename Sample.groupA.toWire.fromWire).toWire) :=
  ⟨⟨by decide, by decide⟩,
    logs_result_is_view Sample.heap1 Sample.request (ToWire Sample.logsA) Sample.groupZ 0
      Sample.rename Sample.groupA.toWire (by decide) (by decide)⟩

/-- C2 fails as stated: appending a group to, or renaming the first group of, the value that
`Logs` returned changes the wire state of the wrapper although `SetLogs` is not called. -/
theorem logs_result_aliases_envelope :
    Sample.request.wire Sample.heap1 = some (ToWire Sample.logsA) ∧
      ((Sample.request.Logs.appendGroup Sample.groupZ Sample.heap1).bind
        (fun h2 => Sample.request.wire h2)) = some (ToWire Sample.logsAZ) ∧
      ((Sample.request.Logs.editGroup 0 Sample.rename Sample.heap1).bind
        (fun h2 => Sample.request.wire h2)) = some (ToWire Sample.logsAX) ∧
      ToWire Sample.logsAZ ≠ ToWire Sample.logsA ∧
      ToWire Sample.logsAX ≠ ToWire Sample.logsA := by
  decide

/-- C9, as the code has it: two wrappers made by separate `NewLogsRequest` calls point to
different envelopes, and after both received `SetLogs(ld)` a further `SetLogs` on the first,
or a group appended through `Logs` of the first or through `ld`, leaves the wire state of the
second and the content its `Logs` returns unchanged. The resource groups themselves are
shared by `ld` and both wrappers: editing group `i` in place through `ld`, or through `Logs`
of the first wrapper, changes group `i` of the wire state of both wrappers alike. -/
theorem wrappers_own_envelopes_share_groups (h0 h1 h2 : Heap R S L) (a b : LogsRequest)
    (ld ld2 : pdata.Logs) (d d2 : pdata.LogsData R S L) (g : pdata.ResourceLogs R S L)
    (i : Nat) (f : pdata.ResourceLogs R S L → pdata.ResourceLogs R S L)
    (gi : otlplogs.ResourceLogs R S L)
    (hA : NewLogsRequest h0 = (a, h1)) (hB : NewLogsRequest h1 = (b, h2))
    (hd : ld.data h0 = some d) (hd2 : ld2.data h0 = some d2)
    (hi : (ToWire d)[i]? = some gi) :
    a.orig ≠ b.orig ∧
      ∃ h3 h4, a.SetLogs ld h2 = some h3 ∧ b.SetLogs ld h3 = some h4 ∧
        a.wire h4 = some (ToWire d) ∧ b.wire h4 = some (ToWire d) ∧ b.logsData h4 = some d ∧
        (∃ h5, a.SetLogs ld2 h4 = some h5 ∧ a.wire h5 = some (ToWire d2) ∧
          b.wire h5 = some (ToWire d) ∧ b.logsData h5 = some d) ∧
        (∃ h5, a.Logs.appendGroup g h4 = some h5 ∧
          a.wire h5 = some (ToWire d ++ [g.toWire]) ∧
          b.wire h5 = some (ToWire d) ∧ b.logsData h5 = some d) ∧
        (∃ h5, ld.appendGroup g h4 = some h5 ∧ a.wire h5 = some (ToWire d) ∧
          b.wire h5 = some (ToWire d) ∧ b.logsData h5 = some d) ∧
        (∃ h5 w5, ld.editGroup i f h4 = some h5 ∧ a.wire h5 = some w5 ∧
          b.wire h5 = some w5 ∧ w5[i]? = some (f gi.fromWire).toWire) ∧
        (∃ h5 w5, a.Logs.editGroup i f h4 = some h5 ∧ a.wire h5 = some w5 ∧
          b.wire h5 = some w5 ∧ w5[i]? = some (f gi.fromWire).toWire) := by
  obtain ⟨w, hc0, rfl⟩ := data_some ld h0 d hd
  obtain ⟨w2, hc20, rfl⟩ := data_some ld2 h0 d2 hd2
  simp only [ToWire_FromWire] at hi ⊢
  -- the two allocations
  obtain ⟨hwa1, -, keepA⟩ := newLogsRequest_fresh h0 h1 a hA
  obtain ⟨hwb2, -, keepB⟩ := newLogsRequest_fresh h1 h2 b hB
  obtain ⟨hcl1, hla, -⟩ := keepA ld.orig w hc0
  obtain ⟨hcl21, hl2a, -⟩ := keepA ld2.orig w2 hc20
  obtain ⟨hwa2, hab, -⟩ := keepB a.orig [] hwa1
  obtain ⟨hcl2, hlb, -⟩ := keepB ld.orig w hcl1
  obtain ⟨hcl22, hl2b, -⟩ := keepB ld2.orig w2 hcl21
  refine ⟨hab, ?_⟩
  -- `a.SetLogs(ld)`
  have hd2h : ld.data h2 = some (FromWire w) := by simp [pdata.Logs.data, hcl2]
  obtain ⟨h3, hs3, -, -, hcol3, hoth3, -, hsl3, hslo3⟩ :=
    setLogs_frame a ld h2 [] (FromWire w) hwa2 hd2h
  have hcl3 : h3.collection ld.orig = some w := (hoth3 ld.orig hla).trans hcl2
  have hcl23 : h3.collection ld2.orig = some w2 := (hoth3 ld2.orig hl2a).trans hcl22
  have hwb3 : b.wire h3 = some [] := (hoth3 b.orig (Ne.symm hab)).trans hwb2
  have hd3h : ld.data h3 = some (FromWire w) := by simp [pdata.Logs.data, hcl3]
  -- `b.SetLogs(ld)`
  obtain ⟨h4, hs4, -, -, hcol4, hoth4, -, hsl4, hslo4⟩ :=
    setLogs_frame b ld h3 [] (FromWire w) hwb3 hd3h
  have hcl4 : h4.collection ld.orig = some w := (hoth4 ld.orig hlb).trans hcl3
  have hcl24 : h4.collection ld2.orig = some w2 := (hoth4 ld2.orig hl2b).trans hcl23
  have hwa4 : a.wire h4 = some w := ((hoth4 a.orig hab).trans hcol3).trans hcl2
  have hwb4 : b.wire h4 = some w := hcol4.trans hcl3
  have hsla : h4.slice a.orig = h4.slice ld.orig := by
    rw [hslo4 a.orig hab, hslo4 ld.orig hlb, hsl3, hslo3 ld.orig hla]
  have hslb : h4.slice b.orig = h4.slice ld.orig := by
    rw [hsl4, hslo4 ld.orig hlb]
  have hdata : ∀ hx : Heap R S L, b.wire hx = some w → b.logsData hx = some (FromWire w) := by
    intro hx hwx
    rw [logsData_eq, hwx]
    rfl
  refine ⟨h3, h4, hs3, hs4, hwa4, hwb4, hdata h4 hwb4, ?_, ?_, ?_, ?_, ?_⟩
  · have hd24 : ld2.data h4 = some (FromWire w2) := by simp [pdata.Logs.data, hcl24]
    obtain ⟨h5, hs5, -, -, hcol5, hoth5, -⟩ := setLogs_frame a ld2 h4 w (FromWire w2) hwa4 hd24
    have hwb5 : b.wire h5 = some w := (hoth5 b.orig (Ne.symm hab)).trans hwb4
    exact ⟨h5, hs5, hcol5.trans hcl24, hwb5, hdata h5 hwb5⟩
  · obtain ⟨h5, happ, hcol5, hoth5⟩ := appendGroup_spec a.Logs g h4 w hwa4
    have hwb5 : b.wire h5 = some w := hoth5 b.orig w (Ne.symm hab) hwb4
    exact ⟨h5, happ, hcol5, hwb5, hdata h5 hwb5⟩
  · obtain ⟨h5, happ, -, hoth5⟩ := appendGroup_spec ld g h4 w hcl4
    have hwa5 : a.wire h5 = some w := hoth5 a.orig w (Ne.symm hla) hwa4
    have hwb5 : b.wire h5 = some w := hoth5 b.orig w (Ne.symm hlb) hwb4
    exact ⟨h5, happ, hwa5, hwb5, hdata h5 hwb5⟩
  · obtain ⟨h5, w5, hed, -, -, -, hpos, hshare⟩ := editGroup_spec ld i f h4 w gi hcl4 hi
    exact ⟨h5, w5, hed, hshare a.orig hsla, hshare b.orig hslb, hpos⟩
  · obtain ⟨h5, w5, hed, -, hcol5, -, hpos, hshare⟩ := editGroup_spec a.Logs i f h4 w gi hwa4 hi
    exact ⟨h5, w5, hed, hcol5, hshare b.orig (hslb.trans hsla.symm), hpos⟩

/-- Witness of C9 on the sample heap: two new wrappers, both set from the internal
representation with the content `logsA`; the changes are a further `SetLogs` with the content
`logsB`, the empty group appended, and the first group renamed. -/
theorem wrappers_own_envelopes_share_groups_witness :
    (Sample.viewA.data Sample.heap0 = some Sample.logsA ∧
      Sample.viewB.data Sample.heap0 = some Sample.logsB ∧
      (ToWire Sample.logsA)[0]? = some Sample.groupA.toWire) ∧
      (NewLogsRequest Sample.heap0).1.orig ≠
        (NewLogsRequest (NewLogsRequest Sample.heap0).2).1.orig ∧
      ∃ h3 h4,
        (NewLogsRequest Sample.heap0).1.SetLogs Sample.viewA
          (NewLogsRequest (NewLogsRequest Sample.heap0).2).2 = some h3 ∧
        (NewLogsRequest (NewLogsRequest Sample.heap0).2).1.SetLogs Sample.viewA h3 = some h4 ∧
        (NewLogsRequest Sample.heap0).1.wire h4 = some (ToWire Sample.logsA) ∧
        (NewLogsRequest (NewLogsRequest Sample.heap0).2).1.wire h4 = some (ToWire Sample.logsA) ∧
        (NewLogsRequest (NewLogsRequest Sample.heap0).2).1.logsData h4 = some Sample.logsA ∧
        (∃ h5, (NewLogsRequest Sample.heap0).1.SetLogs Sample.viewB h4 = some h5 ∧
          (NewLogsRequest Sample.heap0).1.wire h5 = some (ToWire Sample.logsB) ∧
          (NewLogsRequest (NewLogsRequest Sample.heap0).2).1.wire h5 =
            some (ToWire Sample.logsA) ∧
          (NewLogsRequest (NewLogsRequest Sample.heap0).2).1.logsData h5 = some Sample.logsA) ∧
        (∃ h5, (NewLogsRequest Sample.heap0).1.Logs.appendGroup Sample.groupZ h4 = some h5 ∧
          (NewLogsRequest Sample.heap0).1.wire h5 =
            some (ToWire Sample.logsA ++ [Sample.groupZ.toWire]) ∧
          (NewLogsRequest (NewLogsRequest Sample.heap0).2).1.wire h5 =
            some (ToWire Sample.logsA) ∧
          (NewLogsRequest (NewLogsRequest Sample.heap0).2).1.logsData h5 = some Sample.logsA) ∧
        (∃ h5, Sample.viewA.appendGroup Sample.groupZ h4 = some h5 ∧
          (NewLogsRequest Sample.heap0).1.wire h5 = some (ToWire Sample.logsA) ∧
          (NewLogsRequest (NewLogsRequest Sample.heap0).2).1.wire h5 =
            some (ToWire Sample.logsA) ∧
          (NewLogsRequest (NewLogsRequest Sample.heap0).2).1.logsData h5 = some Sample.logsA) ∧
        (∃ h5 w5, Sample.viewA.editGroup 0 Sample.rename h4 = some h5 ∧
          (NewLogsRequest Sample.heap0).1.wire h5 = some w5 ∧
          (NewLogsRequest (NewLogsRequest Sample.heap0).2).1.wire h5 = some w5 ∧
          w5[0]? = some (Sample.rename Sample.groupA.toWire.fromWire).toWire) ∧
        (∃ h5 w5, (NewLogsRequest Sample.heap0).1.Logs.editGroup 0 Sample.rename h4 = some h5 ∧
          (NewLogsRequest Sample.heap0).1.wire h5 = some w5 ∧
          (NewLogsRequest (NewLogsRequest Sample.heap0).2).1.wire h5 = some w5 ∧
          w5[0]? = some (Sample.rename Sample.groupA.toWire.fromWire).toWire) :=
  ⟨⟨by decide, by decide, by decide⟩,
    wrappers_own_envelopes_share_groups Sample.heap0 (NewLogsRequest Sample.heap0).2
      (NewLogsRequest (NewLogsRequest Sample.heap0).2).2 (NewLogsRequest Sample.heap0).1
      (NewLogsRequest (NewLogsRequest Sample.heap0).2).1 Sample.viewA Sample.viewB
      Sample.logsA Sample.logsB Sample.groupZ 0 Sample.rename Sample.groupA.toWire
      rfl rfl (by decide) (by decide) (by decide)⟩

/-- C9 fails as stated: after `a.SetLogs(ld)` and `b.SetLogs(ld)` on two new wrappers,
renaming the first group of `ld` in place, or of the value `Logs` returned on `a`, changes
the wire state of `b`. -/
theorem edit_in_place_reaches_other_wrapper :
    (((NewLogsRequest Sample.heap0).1.SetLogs Sample.viewA
        (NewLogsRequest (NewLogsRequest Sample.heap0).2).2).bind
      (fun h3 => ((NewLogsRequest (NewLogsRequest Sample.heap0).2).1.SetLogs Sample.viewA h3).bind
        (fun h4 => (NewLogsRequest (NewLogsRequest Sample.heap0).2).1.wire h4))) =
          some (ToWire Sample.logsA) ∧
      (((NewLogsRequest Sample.heap0).1.SetLogs Sample.viewA
        (NewLogsRequest (NewLogsRequest Sample.heap0).2).2).bind
      (fun h3 => ((NewLogsRequest (NewLogsRequest Sample.heap0).2).1.SetLogs Sample.viewA h3).bind
        (fun h4 => (Sample.viewA.editGroup 0 Sample.rename h4).bind
          (fun h5 => (NewLogsRequest (NewLogsRequest Sample.heap0).2).1.wire h5)))) =
            some (ToWire Sample.logsAX) ∧
      (((NewLogsRequest Sample.heap0).1.SetLogs Sample.viewA
        (NewLogsRequest (NewLogsRequest Sample.heap0).2).2).bind
      (fun h3 => ((NewLogsRequest (NewLogsRequest Sample.heap0).2).1.SetLogs Sample.viewA h3).bind
        (fun h4 => ((NewLogsRequest Sample.heap0).1.Logs.editGroup 0 Sample.rename h4).bind
          (fun h5 => (NewLogsRequest (NewLogsRequest Sample.heap0).2).1.wire h5)))) =
            some (ToWire Sample.logsAX) ∧
      ToWire Sample.logsAX ≠ ToWire Sample.logsA := by
  decide

end WrapperProperties

end otlpgrpc

/-! ## Properties of the client and server contracts -/

namespace otlpgrpc

section ContractProperties

variable {Ctx Opt Err W : Type}

/-- C3, as the code has it: the response wrapper returned by the client call holds exactly
the pointer the raw client returned, whatever the outcome; so it wraps a non-null envelope
exactly when the raw client handed back a non-null envelope, and the nil envelope when the
raw client handed back nil. -/
theorem client_response_wraps_raw_pointer (c : logsClient Ctx Opt Err W) (ctx : Ctx)
    (request : LogsRequest) (opts : List Opt) (w : W) :
    (c.Export ctx request opts w).1.1 =
        { orig := (c.rawClient.Export ctx request.orig opts w).1.1 } ∧
      ((c.Export ctx request opts w).1.1.orig ≠ none ↔
        (c.rawClient.Export ctx request.orig opts w).1.1 ≠ none) ∧
      ((c.Export ctx request opts w).1.1.orig = none ↔
        (c.rawClient.Export ctx request.orig opts w).1.1 = none) := by
  simp [logsClient.Export]

/-- C3 fails as stated: a raw client that fails with an error and a nil response makes the
client call return a response wrapper around the nil envelope. -/
theorem client_response_null_on_failure :
    ((logsClient.mk (failing "deadline exceeded" :
        otlpcollectorlog.LogsServiceClient Unit Unit String Unit)).Export
      () { orig := some 0 } [] ()).1 = ({ orig := none }, some "deadline exceeded") := by
  rfl

/-- C4: the client call invokes the raw client exactly once, with the request's envelope,
and returns exactly the raw client's error value: the same error when there is one, no
error when there is none. -/
theorem client_error_passthrough_once (c : otlpcollectorlog.LogsServiceClient Ctx Opt Err W)
    (ctx : Ctx) (request : LogsRequest) (opts : List Opt) (w : W)
    (log : List (ClientCall Ctx Opt)) :
    ((logsClient.mk (traced c)).Export ctx request opts (w, log)).2.2 =
        log ++ [{ ctx := ctx, request := request.orig, opts := opts }] ∧
      ((logsClient.mk (traced c)).Export ctx request opts (w, log)).1.2 =
        (c.Export ctx request.orig opts w).1.2 ∧
      ((logsClient.mk c).Export ctx request opts w).1.2 =
        (c.Export ctx request.orig opts w).1.2 := by
  simp [logsClient.Export, traced]

/-- C5: the client call sends exactly the request's envelope with the caller's context and
options, and the response wrapper holds exactly the envelope the raw client returned; over a
channel given by `f` that is `f` of the request's envelope, and over an echoing channel the
request's envelope itself. -/
theorem client_passthrough (c : otlpcollectorlog.LogsServiceClient Ctx Opt Err W)
    (f : Ptr → Ptr) (ctx : Ctx) (request : LogsRequest) (opts : List Opt) (w : W)
    (log : List (ClientCall Ctx Opt)) :
    ((logsClient.mk (traced c)).Export ctx request opts (w, log)).2 =
        ((c.Export ctx request.orig opts w).2,
          log ++ [{ ctx := ctx, request := request.orig, opts := opts }]) ∧
      ((logsClient.mk c).Export ctx request opts w).1.1 =
        { orig := (c.Export ctx request.orig opts w).1.1 } ∧
      ((logsClient.mk c).Export ctx request opts w).2 = (c.Export ctx request.orig opts w).2 ∧
      ((logsClient.mk (channel f : otlpcollectorlog.LogsServiceClient Ctx Opt Err W)).Export
          ctx request opts w).1 = ({ orig := f request.orig }, none) ∧
      ((logsClient.mk (channel id : otlpcollectorlog.LogsServiceClient Ctx Opt Err W)).Export
          ctx request opts w).1.1.orig = request.orig := by
  simp [logsClient.Export, traced, channel]

/-- C6: the server binding invokes the handler exactly once, with the request wrapper around
exactly the inbound envelope (so `Logs` on it is `FromWire` of that envelope's resource
groups), and returns exactly the envelope inside the handler's response together with the
handler's error; the same holds through the registration; a handler with a fixed response
yields that response for any request. -/
theorem server_dispatch {R S L : Type} (srv : LogsServer Ctx Err W) (s : GrpcServer Ctx Err W)
    (ctx : Ctx) (q : Ptr) (w : W) (log : List (ServerCall Ctx)) (fixed : LogsResponse)
    (hp : Heap R S L) :
    ((rawLogsServer.mk (tracedServer srv)).Export ctx q (w, log)).2.2 =
        log ++ [{ ctx := ctx, request := { orig := q } }] ∧
      (LogsRequest.mk q).logsData hp = ((LogsRequest.mk q).wire hp).map FromWire ∧
      ((rawLogsServer.mk srv).Export ctx q w).1 =
        ((srv.Export ctx { orig := q } w).1.1.orig, (srv.Export ctx { orig := q } w).1.2) ∧
      ((rawLogsServer.mk srv).Export ctx q w).2 = (srv.Export ctx { orig := q } w).2 ∧
      (RegisterLogsServer s srv).inbound ctx q w = some ((rawLogsServer.mk srv).Export ctx q w) ∧
      (RegisterLogsServer s (fixedHandler fixed : LogsServer Ctx Err W)).inbound ctx q w =
        some ((fixed.orig, none), w) := by
  refine ⟨?_, logsData_eq _ hp, ?_⟩
  · simp [rawLogsServer.Export, tracedServer]
  · simp [rawLogsServer.Export, RegisterLogsServer, RegisterLogsServiceServer,
      GrpcServer.inbound, fixedHandler]

end ContractProperties

end otlpgrpc
